import Mathlib

/-!
# unmunge: decode-orchestration pipeline

A shallow embedding of `src/munge/unmunge.c`: the metadata tag registry, the
configuration record, command-line tag selection, the destination router
(`open_files`), the metadata renderer (`display_meta`), the payload emitter
(`display_data`) and the teardown (`destroy_conf`).

C strings are lists of characters (`CStr`), a `NULL` pointer is `none`.
Calls into the C library that have an effect on the outside world
(`fopen`, `fclose`, `fwrite`) append an `Event` to a log, and their results
come from an `Env` of oracles, so that every failure branch of the source
can be taken.
-/

namespace Unmunge

/-- A C string: the characters before the terminating NUL. -/
abbrev CStr := List Char

/-! ## Metadata tags -/

/-- The enumerators of `munge_tag_t`, in declaration order. -/
def MUNGE_TAG_STATUS_CODE : Nat := 0

/-- Second enumerator of `munge_tag_t`. -/
def MUNGE_TAG_STATUS_TEXT : Nat := 1

/-- Third enumerator of `munge_tag_t`. -/
def MUNGE_TAG_UID : Nat := 2

/-- Fourth enumerator of `munge_tag_t`. -/
def MUNGE_TAG_GID : Nat := 3

/-- Fifth enumerator of `munge_tag_t`. -/
def MUNGE_TAG_LENGTH : Nat := 4

/-- The end marker of `munge_tag_t`; also the number of tags. -/
def MUNGE_TAG_LAST : Nat := 5

/-- The struct `tag_t`: a tag value and its name (`NULL` in the end marker). -/
structure tag_t where
  val : Int
  str : Option CStr
deriving DecidableEq, Repr

/-- The table `munge_tags[]`, end marker included. -/
def munge_tags : List tag_t :=
  [ { val := MUNGE_TAG_STATUS_CODE, str := some "STATUS-CODE".toList },
    { val := MUNGE_TAG_STATUS_TEXT, str := some "STATUS-TEXT".toList },
    { val := MUNGE_TAG_UID,         str := some "UID".toList },
    { val := MUNGE_TAG_GID,         str := some "GID".toList },
    { val := MUNGE_TAG_LENGTH,      str := some "LENGTH".toList },
    { val := MUNGE_TAG_LAST,        str := none } ]

/-- The C library `strcasecmp`: an integer less than, equal to or greater
than zero as the first string, after `tolower` on every character, is less
than, equal to or greater than the second. -/
def strcasecmp : CStr → CStr → Int
  | [], [] => 0
  | [], _ :: _ => -1
  | _ :: _, [] => 1
  | a :: as, b :: bs =>
    if a.toLower = b.toLower then strcasecmp as bs
    else if a.toLower.toNat < b.toLower.toNat then -1 else 1

/-- The C library `strcmp`: an integer less than, equal to or greater than
zero as the first string is less than, equal to or greater than the second. -/
def strcmp : CStr → CStr → Int
  | [], [] => 0
  | [], _ :: _ => -1
  | _ :: _, [] => 1
  | a :: as, b :: bs =>
    if a = b then strcmp as bs
    else if a.toNat < b.toNat then -1 else 1

/-- The C library `strlen`; the model gives a `NULL` pointer length zero. -/
def strlen (s : Option CStr) : Nat :=
  match s with
  | some s => s.length
  | none => 0

/-- The function `tag_str_to_val`: `-1` for a `NULL` or empty string,
otherwise the index of the first of the `MUNGE_TAG_LAST` table entries whose
name equals `str` ignoring case, and `-1` when the loop finds none. -/
def tag_str_to_val (str : Option CStr) : Int :=
  match str with
  | none => -1
  | some [] => -1
  | some s =>
    match (List.range MUNGE_TAG_LAST).find?
        (fun i => match (munge_tags.getD i ⟨0, none⟩).str with
                  | some name => decide (strcasecmp s name = 0)
                  | none => false) with
    | some i => (i : Int)
    | none => -1

/-- The function `tag_val_to_str`: the name of the first of the
`MUNGE_TAG_LAST` table entries whose value is `val`, `NULL` when the loop
finds none. -/
def tag_val_to_str (val : Int) : Option CStr :=
  match (List.range MUNGE_TAG_LAST).find?
      (fun i => decide (val = (munge_tags.getD i ⟨0, none⟩).val)) with
  | some i => (munge_tags.getD i ⟨0, none⟩).str
  | none => none

/-- Equality of two C strings ignoring case: they agree after `tolower` on
every character. -/
def eq_ignoring_case (a b : CStr) : Prop := a.map Char.toLower = b.map Char.toLower

instance (a b : CStr) : Decidable (eq_ignoring_case a b) := by
  unfold eq_ignoring_case; infer_instance

/-! ## The outside world -/

/-- A C stream pointer `FILE *`: one of the two standard streams used by the
program, or the stream returned by a successful `fopen`, named by the number
of library calls logged before it (so two `fopen` calls never return the
same pointer). -/
inductive FILE where
  | stdin
  | stdout
  | opened (id : Nat)
deriving DecidableEq, Repr

/-- The `fopen` modes the program uses: `"r"` and `"w"` (create or truncate). -/
inductive Mode where
  | r
  | w
deriving DecidableEq, Repr

/-- One call into the C library with an effect on streams, with its result. -/
inductive Event where
  | fopen (path : CStr) (mode : Mode) (ret : Option FILE)
  | fclose (fp : FILE) (ret : Int)
  | fwrite (fp : FILE) (written : List Nat)
deriving DecidableEq, Repr

/-- The diagnostics the program passes to `log_err`. -/
inductive Msg where
  | unable_to_read (fn : CStr)
  | same_file (fn : CStr)
  | unable_to_write (fn : CStr)
  | close_infile
  | close_metadata_outfile
  | close_payload_outfile
  | write_error
  | socket_name
  | invalid_option
  | unimplemented_option
  | unrecognized_parameter (arg : CStr)
deriving DecidableEq, Repr

/-- How the process stops inside a function: `exit (EMUNGE_SUCCESS)` after
help, license or tag list, or a fatal `log_err`. -/
inductive Stop where
  | success
  | fatal (msg : Msg)
deriving DecidableEq, Repr

/-- What a function does: it returns a value, or the process stops inside
it; either way with the log of library calls made so far. -/
inductive Outcome (α : Type) where
  | returns (log : List Event) (a : α)
  | exits (log : List Event) (why : Stop)

/-- The log of library calls at the end of an outcome. -/
def Outcome.log {α : Type} : Outcome α → List Event
  | .returns log _ => log
  | .exits log _ => log

/-- How the process stopped, when it did. -/
def Outcome.stop {α : Type} : Outcome α → Option Stop
  | .returns _ _ => none
  | .exits _ why => some why

/-- Sequencing: the next statement runs only when the process has not
stopped. -/
def Outcome.bind {α β : Type} (o : Outcome α) (f : List Event → α → Outcome β) : Outcome β :=
  match o with
  | .returns log a => f log a
  | .exits log why => .exits log why

/-- Modelled from the spec: `log_err` of `common.h`, which is not part of
the sources at hand. The spec (section 7) makes every such condition fatal:
one diagnostic is printed and the process terminates immediately. -/
def log_err {α : Type} (log : List Event) (msg : Msg) : Outcome α :=
  .exits log (.fatal msg)

/-- The results of the calls the program makes outside itself. -/
structure Env where
  /-- whether `fopen (path, mode)` succeeds -/
  fopen_ok : CStr → Mode → Bool
  /-- the value `fclose (fp)` returns -/
  fclose_ret : FILE → Int
  /-- the number of bytes `fwrite` accepts out of those offered -/
  fwrite_ret : FILE → List Nat → Nat
  /-- the value `munge_ctx_set (ctx, MUNGE_OPT_SOCKET, optarg)` returns -/
  munge_ctx_set : CStr → Int
  /-- the text `munge_strerror` returns for a status -/
  munge_strerror : Int → CStr

/-- The C library `fopen`, logged. -/
def fopen (env : Env) (log : List Event) (path : CStr) (mode : Mode) :
    List Event × Option FILE :=
  let ret := if env.fopen_ok path mode then some (FILE.opened log.length) else none
  (log ++ [Event.fopen path mode ret], ret)

/-- The C library `fclose`, logged. -/
def fclose (env : Env) (log : List Event) (fp : FILE) : List Event × Int :=
  (log ++ [Event.fclose fp (env.fclose_ret fp)], env.fclose_ret fp)

/-- The C library `fwrite (ptr, 1, nmemb, fp)`, logged: the stream accepts
some first part of the `nmemb` bytes at `ptr`, and the number accepted is
returned. -/
def fwrite (env : Env) (log : List Event) (ptr : Option (List Nat)) (nmemb : Nat)
    (fp : FILE) : List Event × Nat :=
  let offered := (ptr.getD []).take nmemb
  let n := min (env.fwrite_ret fp offered) offered.length
  (log ++ [Event.fwrite fp (offered.take n)], n)

/-- Conversion of an `int` to `size_t` (64 bits). -/
def size_t (n : Int) : Nat := (n % 2 ^ 64).toNat

/-- The value a 32-bit unsigned argument has when `printf` reads it for
`%d`. -/
def to_int (u : Nat) : Int :=
  if u % 2 ^ 32 < 2 ^ 31 then (u % 2 ^ 32 : Nat) else ((u % 2 ^ 32 : Nat) : Int) - 2 ^ 32

/-- Modelled from the spec: the status `EMUNGE_SUCCESS` of `munge.h`, a
header that is not among the sources; the spec (section 6) gives success
the exit code 0. -/
def EMUNGE_SUCCESS : Int := 0

/-! ## Configuration -/

/-- The struct `conf`. The munge context keeps only the socket name set
through `munge_ctx_set`; memory management is outside the model. -/
structure conf_t where
  ctx : Option CStr
  status : Int
  fn_in : Option CStr
  fn_meta : Option CStr
  fn_out : Option CStr
  fp_in : Option FILE
  fp_meta : Option FILE
  fp_out : Option FILE
  clen : Int
  cred : Option (List Nat)
  dlen : Int
  data : Option (List Nat)
  uid : Nat
  gid : Nat
  tag : Nat → Bool
  tag_max_str_len : Int

/-- The function `create_conf`; the two allocations are taken to succeed. -/
def create_conf : conf_t :=
  { ctx := none
    status := -1
    fn_in := some "-".toList
    fn_meta := some "-".toList
    fn_out := some "-".toList
    fp_in := none
    fp_meta := none
    fp_out := none
    clen := 0
    cred := none
    dlen := 0
    data := none
    uid := 2 ^ 32 - 1
    gid := 2 ^ 32 - 1
    tag := fun _ => false
    tag_max_str_len :=
      (List.range MUNGE_TAG_LAST).foldl
        (fun maxlen i => max maxlen (strlen (tag_val_to_str i) : Int)) 0 }

/-! ## Command line -/

/-- The separators of `parse_tags`: space, tab, newline, `.`, `,`, `;`. -/
def separators : CStr := [' ', '\t', '\n', '.', ',', ';']

/-- The C library `strtok`, as a function of the position it scans from: it
skips leading delimiters and returns `NULL` at the end of the string;
otherwise the token runs up to the next delimiter, which is overwritten
with NUL, and the scan position saved for the next call is just after it
(or the end of the string). The result is the token and the saved
position. -/
def strtok (s : CStr) (delim : CStr) : Option (CStr × CStr) :=
  match s.dropWhile (fun c => decide (c ∈ delim)) with
  | [] => none
  | c :: cs =>
    some ((c :: cs).takeWhile (fun c => decide (c ∉ delim)),
          ((c :: cs).dropWhile (fun c => decide (c ∉ delim))).tail)

/-- The `while (tag != NULL)` loop of `parse_tags`: the third argument is
the result of the last `strtok` call. The first argument bounds the number
of iterations; `parse_tags` starts it high enough (one token needs at least
one character). -/
def parse_tags_loop : Nat → conf_t → Option (CStr × CStr) → conf_t
  | 0, conf, _ => conf
  | _ + 1, conf, none => conf
  | fuel + 1, conf, some (tag, saved) =>
    let val := tag_str_to_val (some tag)
    let conf :=
      if val ≥ 0 then
        { conf with tag := fun i => if (i : Int) = val then true else conf.tag i }
      else conf
    parse_tags_loop fuel conf (strtok saved separators)

/-- The function `parse_tags`. -/
def parse_tags (conf : conf_t) (tags : Option CStr) : conf_t :=
  match tags with
  | none => conf
  | some [] => conf
  | some (c :: cs) =>
    parse_tags_loop ((c :: cs).length + 1) conf (strtok (c :: cs) separators)

/-- One result of `getopt`: the option character and `optarg`. -/
structure getopt_ret where
  c : Char
  optarg : Option CStr
deriving DecidableEq, Repr

/-- The `for (;;)` loop of `parse_cmdline` over the results of the
successive `getopt` calls (the end of the list is the `-1` result). It
carries `conf` and `got_tags`. Help, license and tag list print to standard
output and exit. -/
def parse_cmdline_loop (env : Env) (log : List Event) :
    List getopt_ret → conf_t → Bool → Outcome (conf_t × Bool)
  | [], conf, got_tags => .returns log (conf, got_tags)
  | g :: rest, conf, got_tags =>
    if g.c = 'h' then .exits log .success
    else if g.c = 'L' then .exits log .success
    else if g.c = 'v' then parse_cmdline_loop env log rest conf got_tags
    else if g.c = 'i' then
      parse_cmdline_loop env log rest { conf with fn_in := g.optarg } got_tags
    else if g.c = 'm' then
      parse_cmdline_loop env log rest { conf with fn_meta := g.optarg } got_tags
    else if g.c = 'n' then
      parse_cmdline_loop env log rest { conf with fn_meta := none, fn_out := none } got_tags
    else if g.c = 'o' then
      parse_cmdline_loop env log rest { conf with fn_out := g.optarg } got_tags
    else if g.c = 'S' then
      if env.munge_ctx_set (g.optarg.getD []) ≠ EMUNGE_SUCCESS then
        log_err log .socket_name
      else parse_cmdline_loop env log rest { conf with ctx := g.optarg } got_tags
    else if g.c = 't' then
      parse_cmdline_loop env log rest (parse_tags conf g.optarg) true
    else if g.c = 'T' then .exits log .success
    else if g.c = '?' then log_err log .invalid_option
    else log_err log .unimplemented_option

/-- The function `parse_cmdline`: `opts` are the results of the `getopt`
calls and `rest` is `argv[optind]` after the last one. -/
def parse_cmdline (env : Env) (log : List Event) (conf : conf_t)
    (opts : List getopt_ret) (rest : Option CStr) : Outcome conf_t :=
  (parse_cmdline_loop env log opts conf false).bind fun log r =>
    match rest with
    | some arg => log_err log (.unrecognized_parameter arg)
    | none =>
      if !r.2 then
        .returns log { r.1 with tag := fun i => if i < MUNGE_TAG_LAST then true else r.1.tag i }
      else .returns log r.1

/-! ## Destination router -/

/-- The first statement of `open_files`: the input stream. -/
def open_files_in (env : Env) (log : List Event) (conf : conf_t) : Outcome conf_t :=
  match conf.fn_in with
  | none => .returns log conf
  | some fn_in =>
    if strcmp fn_in "-".toList = 0 then .returns log { conf with fp_in := some .stdin }
    else
      match fopen env log fn_in .r with
      | (log, none) => log_err log (.unable_to_read fn_in)
      | (log, some fp) => .returns log { conf with fp_in := some fp }

/-- The second statement of `open_files`: the metadata stream. -/
def open_files_meta (env : Env) (log : List Event) (conf : conf_t) : Outcome conf_t :=
  match conf.fn_meta with
  | none => .returns log conf
  | some fn_meta =>
    if strcmp fn_meta "-".toList = 0 then .returns log { conf with fp_meta := some .stdout }
    else if conf.fn_in.isSome ∧ strcmp fn_meta (conf.fn_in.getD []) = 0 then
      log_err log (.same_file fn_meta)
    else
      match fopen env log fn_meta .w with
      | (log, none) => log_err log (.unable_to_write fn_meta)
      | (log, some fp) => .returns log { conf with fp_meta := some fp }

/-- The third statement of `open_files`: the payload stream. -/
def open_files_out (env : Env) (log : List Event) (conf : conf_t) : Outcome conf_t :=
  match conf.fn_out with
  | none => .returns log conf
  | some fn_out =>
    if strcmp fn_out "-".toList = 0 then .returns log { conf with fp_out := some .stdout }
    else if conf.fn_in.isSome ∧ strcmp fn_out (conf.fn_in.getD []) = 0 then
      log_err log (.same_file fn_out)
    else if conf.fn_meta.isSome ∧ strcmp fn_out (conf.fn_meta.getD []) = 0 then
      .returns log { conf with fp_out := conf.fp_meta }
    else
      match fopen env log fn_out .w with
      | (log, none) => log_err log (.unable_to_write fn_out)
      | (log, some fp) => .returns log { conf with fp_out := some fp }

/-- The function `open_files`: its three statements in sequence. -/
def open_files (env : Env) (log : List Event) (conf : conf_t) : Outcome conf_t :=
  (open_files_in env log conf).bind fun log conf =>
  (open_files_meta env log conf).bind fun log conf =>
  open_files_out env log conf

/-! ## Metadata renderer and payload emitter -/

/-- The conversion `%d` of `printf`. -/
def fmt_d (n : Int) : CStr := (toString n).toList

/-- The conversion `%*c` of `printf` with width argument `w`: the character
padded with spaces on the left to `w` columns, or on the right to `-w`
columns when `w` is negative. -/
def fmt_star_c (w : Int) (c : Char) : CStr :=
  if 0 ≤ w then List.replicate (w.toNat - 1) ' ' ++ [c]
  else c :: List.replicate ((-w).toNat - 1) ' '

/-- The conversion `%s` of `printf`; glibc prints `(null)` for `NULL`. -/
def fmt_s (s : Option CStr) : CStr :=
  match s with
  | some s => s
  | none => "(null)".toList

/-- The text of `fprintf (fp, "%s:%*c%d\n", s, w, 0x20, v)`. -/
def fprintf_d (s : Option CStr) (w : Int) (v : Int) : CStr :=
  fmt_s s ++ [':'] ++ fmt_star_c w (Char.ofNat 0x20) ++ fmt_d v ++ ['\n']

/-- The text of `fprintf (fp, "%s:%*c%s\n", s, w, 0x20, v)`. -/
def fprintf_s (s : Option CStr) (w : Int) (v : Option CStr) : CStr :=
  fmt_s s ++ [':'] ++ fmt_star_c w (Char.ofNat 0x20) ++ fmt_s v ++ ['\n']

/-- The function `display_meta`: the texts of the successive `fprintf`
calls, all of which go to `conf->fp_meta`. -/
def display_meta (env : Env) (conf : conf_t) : List CStr :=
  match conf.fp_meta with
  | none => []
  | some _ =>
    let pad : Int := conf.tag_max_str_len + 2
    let code :=
      if conf.tag MUNGE_TAG_STATUS_CODE then
        let s := tag_val_to_str MUNGE_TAG_STATUS_CODE
        let w := pad - strlen s
        [fprintf_d s w conf.status]
      else []
    let text :=
      if conf.tag MUNGE_TAG_STATUS_TEXT then
        let s := tag_val_to_str MUNGE_TAG_STATUS_TEXT
        let w := pad - strlen s
        [fprintf_s s w (some (env.munge_strerror conf.status))]
      else []
    if conf.status ≠ EMUNGE_SUCCESS then code ++ text
    else
      let uid :=
        if conf.tag MUNGE_TAG_UID then
          let s := tag_val_to_str MUNGE_TAG_UID
          let w := pad - strlen s
          [fprintf_d s w (to_int conf.uid)]
        else []
      let gid :=
        if conf.tag MUNGE_TAG_GID then
          let s := tag_val_to_str MUNGE_TAG_GID
          let w := pad - strlen s
          [fprintf_d s w (to_int conf.gid)]
        else []
      let length :=
        if conf.tag MUNGE_TAG_LENGTH then
          let s := tag_val_to_str MUNGE_TAG_LENGTH
          let w := pad - strlen s
          [fprintf_d s w conf.dlen]
        else []
      let sep := if conf.fp_meta = conf.fp_out then [['\n']] else []
      code ++ text ++ uid ++ gid ++ length ++ sep

/-- The function `display_data`. -/
def display_data (env : Env) (log : List Event) (conf : conf_t) : Outcome Unit :=
  if conf.status ≠ EMUNGE_SUCCESS then .returns log ()
  else
    match conf.fp_out with
    | none => .returns log ()
    | some fp_out =>
      match fwrite env log conf.data (size_t conf.dlen) fp_out with
      | (log, n) =>
        if n ≠ size_t conf.dlen then log_err log .write_error
        else .returns log ()

/-! ## Teardown -/

/-- The statement of `destroy_conf` that closes the input stream. -/
def destroy_conf_in (env : Env) (log : List Event) (conf : conf_t) : Outcome conf_t :=
  match conf.fp_in with
  | none => .returns log conf
  | some fp_in =>
    match fclose env log fp_in with
    | (log, ret) =>
      if ret < 0 then log_err log .close_infile
      else .returns log { conf with fp_in := none }

/-- The statement of `destroy_conf` that closes the metadata stream. -/
def destroy_conf_meta (env : Env) (log : List Event) (conf : conf_t) : Outcome conf_t :=
  match conf.fp_meta with
  | none => .returns log conf
  | some fp_meta =>
    match fclose env log fp_meta with
    | (log, ret) =>
      if ret < 0 then log_err log .close_metadata_outfile
      else .returns log { conf with fp_meta := none }

/-- The statement of `destroy_conf` that closes the payload stream. -/
def destroy_conf_out (env : Env) (log : List Event) (conf : conf_t) : Outcome conf_t :=
  match conf.fp_out with
  | none => .returns log conf
  | some fp_out =>
    if conf.fn_out.isSome ∧ conf.fn_meta.isSome
        ∧ strcmp (conf.fn_out.getD []) (conf.fn_meta.getD []) ≠ 0 then
      match fclose env log fp_out with
      | (log, ret) =>
        if ret < 0 then log_err log .close_payload_outfile
        else .returns log { conf with fp_out := none }
    else .returns log { conf with fp_out := none }

/-- The function `destroy_conf`, as far as streams go: destroying the
context and scrubbing and freeing the two buffers touch no stream. -/
def destroy_conf (env : Env) (log : List Event) (conf : conf_t) : Outcome Unit :=
  (destroy_conf_in env log conf).bind fun log conf =>
  (destroy_conf_meta env log conf).bind fun log conf =>
  (destroy_conf_out env log conf).bind fun log _ =>
  .returns log ()

/-- An environment in which every call outside the program succeeds. -/
def env_ok : Env :=
  { fopen_ok := fun _ _ => true
    fclose_ret := fun _ => 0
    fwrite_ret := fun _ bytes => bytes.length
    munge_ctx_set := fun _ => 0
    munge_strerror := fun e => if e = 0 then "Success".toList else "Failure".toList }

/-! ## Specification vocabulary

Definitions that follow the words of the specification; the theorems
compare the functions above with them. -/

/-- Specification: an attribute is rendered when it is selected and
permitted by the decode status: the two status attributes always, the
others only on success. -/
def permitted (conf : conf_t) (i : Nat) : Bool :=
  conf.tag i && (decide (i = MUNGE_TAG_STATUS_CODE) || decide (i = MUNGE_TAG_STATUS_TEXT)
    || decide (conf.status = EMUNGE_SUCCESS))

/-- Specification: the value rendered for an attribute. -/
def tag_value (env : Env) (conf : conf_t) (i : Nat) : CStr :=
  if i = MUNGE_TAG_STATUS_CODE then fmt_d conf.status
  else if i = MUNGE_TAG_STATUS_TEXT then env.munge_strerror conf.status
  else if i = MUNGE_TAG_UID then fmt_d (to_int conf.uid)
  else if i = MUNGE_TAG_GID then fmt_d (to_int conf.gid)
  else fmt_d conf.dlen

/-- Specification: the attribute a metadata line is for, read off the line:
the registry ordinal of the text before the first colon, `-1` when that text
is no attribute name. -/
def line_tag (line : CStr) : Int :=
  tag_str_to_val (some (line.takeWhile (fun c => decide (c ≠ ':'))))

/-- Specification: the ordinals of the attributes rendered, in registry
order. -/
def rendered_tags (conf : conf_t) : List Nat :=
  (List.range MUNGE_TAG_LAST).filter (permitted conf)

/-- Specification: the number of times `path` was opened for writing
(created or truncated) in a log, whether the call succeeded or not. -/
def opens_for_write (log : List Event) (path : CStr) : Nat :=
  log.countP (fun e => match e with
    | .fopen q .w _ => decide (q = path)
    | _ => false)

/-- The command line `-i a -m b -o a`: the payload path is the input path. -/
def conf_alias_out : conf_t :=
  { create_conf with
    fn_in := some "a".toList, fn_meta := some "b".toList, fn_out := some "a".toList }

/-- The command line `-i a -o a`: the payload path is the input path and
the metadata path is the default `-`. -/
def conf_alias_default_meta : conf_t :=
  { create_conf with fn_in := some "a".toList, fn_out := some "a".toList }

/-- The `getopt` results for the command line `-n -o x`. -/
def opts_discard_then_output : List getopt_ret :=
  [⟨'n', none⟩, ⟨'o', some "x".toList⟩]

/-- Specification: the separator characters of a `-t` argument: space,
tab, newline, `.`, `,` and `;`. -/
def is_separator_char (c : Char) : Prop :=
  c = ' ' ∨ c = '\t' ∨ c = '\n' ∨ c = '.' ∨ c = ',' ∨ c = ';'

instance (c : Char) : Decidable (is_separator_char c) := by
  unfold is_separator_char; infer_instance

/-- Specification: the tokens of a `-t` argument: the argument split at
every separator character, the empty pieces dropped. -/
def tokens (arg : CStr) : List CStr :=
  (arg.splitOnP fun c => decide (is_separator_char c)).filter fun t => decide (t ≠ [])

/-- Specification: the arguments of the `-t` options of a command line, in
order. -/
def tag_args (opts : List getopt_ret) : List CStr :=
  opts.filterMap fun g => if g.c = 't' then g.optarg else none

/-- Specification: a command line has no `-t` option. -/
def no_tag_option (opts : List getopt_ret) : Prop := ∀ g ∈ opts, g.c ≠ 't'

instance (opts : List getopt_ret) : Decidable (no_tag_option opts) := by
  unfold no_tag_option; infer_instance

/-- Specification: a token names attribute `i`: `i` is a registry ordinal
and the token equals its name ignoring case. -/
def names_tag (tok : CStr) (i : Nat) : Prop :=
  i < MUNGE_TAG_LAST ∧ ∃ name : CStr, tag_val_to_str i = some name ∧ eq_ignoring_case tok name

instance (tok : CStr) (i : Nat) : Decidable (names_tag tok i) :=
  match h : tag_val_to_str i with
  | some name =>
    decidable_of_iff (i < MUNGE_TAG_LAST ∧ eq_ignoring_case tok name)
      (by unfold names_tag; simp [h])
  | none => isFalse (by unfold names_tag; simp [h])

/-- The options that `parse_cmdline` goes past: `-v`, `-i`, `-m`, `-n`,
`-o`, `-t`, and `-S` when the socket name is accepted. -/
def passes (env : Env) (g : getopt_ret) : Bool :=
  g.c = 'v' || g.c = 'i' || g.c = 'm' || g.c = 'n' || g.c = 'o' || g.c = 't'
    || (g.c = 'S' && decide (env.munge_ctx_set (g.optarg.getD []) = EMUNGE_SUCCESS))

/-- The line `display_meta` writes for attribute `i`, as its `fprintf` call
builds it. -/
def tag_line (env : Env) (conf : conf_t) (i : Nat) : CStr :=
  fmt_s (tag_val_to_str i) ++ [':']
    ++ fmt_star_c (conf.tag_max_str_len + 2 - strlen (tag_val_to_str i)) ' '
    ++ tag_value env conf i ++ ['\n']

/-- The separator `display_meta` writes after the attribute lines. -/
def separator_line (conf : conf_t) : List CStr :=
  if conf.status = EMUNGE_SUCCESS ∧ conf.fp_meta = conf.fp_out then [['\n']] else []

/-- A failed decode with metadata and payload both on standard output. -/
def conf_failed_shared : conf_t :=
  { create_conf with
    status := 5, fp_in := some .stdin, fp_meta := some .stdout, fp_out := some .stdout,
    tag := fun i => decide (i < MUNGE_TAG_LAST) }

/-- A failed decode (status 8) with the attributes STATUS-CODE and UID
selected and metadata on standard output. -/
def conf_code_uid_failed : conf_t :=
  { create_conf with
    status := 8, fp_in := some .stdin, fp_meta := some .stdout, fp_out := some .stdout,
    tag := fun i => decide (i = MUNGE_TAG_STATUS_CODE ∨ i = MUNGE_TAG_UID) }

/-- A successful decode with all attributes selected, uid 1000, gid 100 and
a payload of 5 bytes, metadata and payload both on standard output. -/
def conf_success_shared : conf_t :=
  { create_conf with
    status := 0, fp_in := some .stdin, fp_meta := some .stdout, fp_out := some .stdout,
    uid := 1000, gid := 100, dlen := 5, data := some [104, 101, 108, 108, 111],
    tag := fun i => decide (i < MUNGE_TAG_LAST) }

/-- The command line `-m x -o x`: metadata and payload go to one file. -/
def conf_shared_file : conf_t :=
  { create_conf with fn_meta := some "x".toList, fn_out := some "x".toList }

/-- The state `open_files` leaves for `conf_shared_file` when every call
succeeds. -/
def conf_shared_file_opened : conf_t :=
  { conf_shared_file with
    fp_in := some .stdin, fp_meta := some (.opened 0), fp_out := some (.opened 0) }

/-- The `getopt` results for the command line `-t "uid, Status-Code;;x"`. -/
def opts_tags : List getopt_ret :=
  [⟨'t', some "uid, Status-Code;;x".toList⟩]

/-! ## The tag registry: theorems -/

theorem strcasecmp_eq_zero_iff (a b : CStr) :
    strcasecmp a b = 0 ↔ a.map Char.toLower = b.map Char.toLower := by
  induction a generalizing b with
  | nil => cases b <;> simp [strcasecmp]
  | cons x xs ih =>
    cases b with
    | nil => simp [strcasecmp]
    | cons y ys =>
      simp only [strcasecmp, List.map_cons, List.cons.injEq]
      by_cases h : x.toLower = y.toLower
      · simp [h, ih]
      · simp only [h, if_false, false_and, iff_false]
        split <;> simp

theorem strcmp_eq_zero_iff (a b : CStr) : strcmp a b = 0 ↔ a = b := by
  induction a generalizing b with
  | nil => cases b <;> simp [strcmp]
  | cons x xs ih =>
    cases b with
    | nil => simp [strcmp]
    | cons y ys =>
      simp only [strcmp, List.cons.injEq]
      by_cases h : x = y
      · simp [h, ih]
      · simp only [h, if_false, false_and, iff_false]
        split <;> simp

theorem tag_str_to_val_cons (c : Char) (cs : CStr) :
    tag_str_to_val (some (c :: cs)) =
      if eq_ignoring_case (c :: cs) "STATUS-CODE".toList then 0
      else if eq_ignoring_case (c :: cs) "STATUS-TEXT".toList then 1
      else if eq_ignoring_case (c :: cs) "UID".toList then 2
      else if eq_ignoring_case (c :: cs) "GID".toList then 3
      else if eq_ignoring_case (c :: cs) "LENGTH".toList then 4
      else -1 := by
  have hr : List.range MUNGE_TAG_LAST = [0, 1, 2, 3, 4] := by decide
  simp only [tag_str_to_val, hr, List.find?, munge_tags, List.getD_cons_zero, List.getD_cons_succ,
    eq_ignoring_case, ← strcasecmp_eq_zero_iff]
  split_ifs <;> simp_all

theorem tag_val_to_str_eq (v : Int) :
    tag_val_to_str v =
      if v = 0 then some "STATUS-CODE".toList
      else if v = 1 then some "STATUS-TEXT".toList
      else if v = 2 then some "UID".toList
      else if v = 3 then some "GID".toList
      else if v = 4 then some "LENGTH".toList
      else none := by
  have hr : List.range MUNGE_TAG_LAST = [0, 1, 2, 3, 4] := by decide
  simp only [tag_val_to_str, hr, List.find?, munge_tags, List.getD_cons_zero, List.getD_cons_succ,
    MUNGE_TAG_STATUS_CODE, MUNGE_TAG_STATUS_TEXT, MUNGE_TAG_UID, MUNGE_TAG_GID, MUNGE_TAG_LENGTH]
  split_ifs <;> simp [*]

theorem tag_str_to_val_of_eq (i : Nat) (name s : CStr) (hi : i < MUNGE_TAG_LAST)
    (hn : tag_val_to_str i = some name) (hs : eq_ignoring_case s name) :
    tag_str_to_val (some s) = i := by
  simp only [MUNGE_TAG_LAST] at hi
  cases s with
  | nil =>
    exfalso
    interval_cases i <;> simp [tag_val_to_str_eq] at hn <;> subst hn <;>
      simp [eq_ignoring_case] at hs
  | cons c cs =>
    rw [tag_str_to_val_cons]
    simp only [eq_ignoring_case] at hs ⊢
    interval_cases i <;> simp [tag_val_to_str_eq] at hn <;> subst hn <;> simp only [hs] <;> decide

theorem tag_str_to_val_range (s : Option CStr) :
    tag_str_to_val s = -1 ∨ ∃ i : Nat, i < MUNGE_TAG_LAST ∧ tag_str_to_val s = i ∧
      ∃ t name : CStr, s = some t ∧ tag_val_to_str i = some name ∧ eq_ignoring_case t name := by
  match s with
  | none => left; rfl
  | some [] => left; rfl
  | some (c :: cs) =>
    rw [tag_str_to_val_cons]
    split_ifs with h0 h1 h2 h3 h4
    · exact Or.inr ⟨0, by decide, rfl, _, _, rfl, by decide, h0⟩
    · exact Or.inr ⟨1, by decide, rfl, _, _, rfl, by decide, h1⟩
    · exact Or.inr ⟨2, by decide, rfl, _, _, rfl, by decide, h2⟩
    · exact Or.inr ⟨3, by decide, rfl, _, _, rfl, by decide, h3⟩
    · exact Or.inr ⟨4, by decide, rfl, _, _, rfl, by decide, h4⟩
    · left; rfl

theorem no_name_is_prefix (i j : Nat) (a b : CStr) (hi : i < MUNGE_TAG_LAST)
    (hj : j < MUNGE_TAG_LAST) (ha : tag_val_to_str i = some a) (hb : tag_val_to_str j = some b)
    (hl : b.length < a.length) : ¬ eq_ignoring_case (a.take b.length) b := by
  simp only [MUNGE_TAG_LAST] at hi hj
  interval_cases i <;> interval_cases j <;>
    simp [tag_val_to_str_eq] at ha hb <;> subst ha <;> subst hb <;>
    first
      | (exfalso; revert hl; decide)
      | decide

/-- Claim C8. The two registry lookups are total and mutually inverse. For
every ordinal below `MUNGE_TAG_LAST`, `tag_val_to_str` returns a name, and
`tag_str_to_val` returns that ordinal for every string equal to the name
ignoring case. `tag_val_to_str` returns `NULL` for every integer outside
`[0, MUNGE_TAG_LAST)`. `tag_str_to_val` returns `-1` for `NULL`, for the
empty string, for every string that equals no registered name ignoring
case, and in particular for every proper prefix and every proper extension
of a registered name. -/
theorem registry_lookups_inverse :
    (∀ i : Nat, i < MUNGE_TAG_LAST → ∃ name : CStr, tag_val_to_str i = some name ∧
      ∀ s : CStr, eq_ignoring_case s name → tag_str_to_val (some s) = i)
    ∧ (∀ v : Int, (v < 0 ∨ (MUNGE_TAG_LAST : Int) ≤ v) → tag_val_to_str v = none)
    ∧ tag_str_to_val none = -1
    ∧ tag_str_to_val (some []) = -1
    ∧ (∀ s : CStr, (∀ i : Nat, i < MUNGE_TAG_LAST → ∀ name : CStr,
          tag_val_to_str i = some name → ¬ eq_ignoring_case s name) →
        tag_str_to_val (some s) = -1)
    ∧ (∀ i : Nat, i < MUNGE_TAG_LAST → ∀ name s t : CStr, tag_val_to_str i = some name →
        t ≠ [] → (s ++ t = name ∨ name ++ t = s) → tag_str_to_val (some s) = -1) := by
  refine ⟨?_, ?_, rfl, rfl, ?_, ?_⟩
  · intro i hi
    have hex : ∃ name : CStr, tag_val_to_str i = some name := by
      simp only [MUNGE_TAG_LAST] at hi
      interval_cases i <;> exact ⟨_, rfl⟩
    obtain ⟨name, hn⟩ := hex
    exact ⟨name, hn, fun s hs => tag_str_to_val_of_eq i name s hi hn hs⟩
  · intro v hv
    rw [tag_val_to_str_eq]
    simp only [MUNGE_TAG_LAST, Nat.cast_ofNat] at hv
    split_ifs <;> first | rfl | omega
  · intro s hs
    rcases tag_str_to_val_range (some s) with h | ⟨i, hi, -, t, name, ht, hn, he⟩
    · exact h
    · cases ht
      exact absurd he (hs i hi name hn)
  · intro i hi name s t hn ht hst
    rcases tag_str_to_val_range (some s) with h | ⟨j, hj, -, u, name2, hu, hn2, he⟩
    · exact h
    · exfalso
      cases hu
      have htl : 0 < t.length := List.length_pos.mpr ht
      have hlen : s.length = name2.length := by
        have := congrArg List.length he
        simpa using this
      rcases hst with h | h
      · have hl : name2.length < name.length := by
          have := congrArg List.length h
          simp at this; omega
        have hs : s = name.take name2.length := by
          rw [← h, ← hlen]; simp
        rw [hs] at he
        exact no_name_is_prefix i j name name2 hi hj hn hn2 hl he
      · have hl : name.length < name2.length := by
          have := congrArg List.length h
          simp at this; omega
        have he2 : eq_ignoring_case (name2.take name.length) name := by
          unfold eq_ignoring_case at he ⊢
          rw [List.map_take, ← he, ← h]; simp
        exact no_name_is_prefix j i name2 name hj hi hn2 hn hl he2

/-! ## Metadata renderer: theorems -/

theorem tag_name_status_code :
    tag_val_to_str (MUNGE_TAG_STATUS_CODE : Nat) = some "STATUS-CODE".toList := by decide

theorem rendered_tags_eq (conf : conf_t) :
    rendered_tags conf =
      (if conf.tag 0 then [0] else []) ++ (if conf.tag 1 then [1] else [])
      ++ (if conf.status = EMUNGE_SUCCESS then
            (if conf.tag 2 then [2] else []) ++ (if conf.tag 3 then [3] else [])
            ++ (if conf.tag 4 then [4] else [])
          else []) := by
  have hr : List.range MUNGE_TAG_LAST = [0, 1, 2, 3, 4] := by decide
  simp only [rendered_tags, hr, permitted, MUNGE_TAG_STATUS_CODE, MUNGE_TAG_STATUS_TEXT]
  by_cases hs : conf.status = EMUNGE_SUCCESS <;>
    cases h0 : conf.tag 0 <;> cases h1 : conf.tag 1 <;> cases h2 : conf.tag 2 <;>
    cases h3 : conf.tag 3 <;> cases h4 : conf.tag 4 <;>
    simp [List.filter, permitted, MUNGE_TAG_STATUS_CODE, MUNGE_TAG_STATUS_TEXT, hs, h0, h1, h2, h3, h4]

theorem display_meta_eq (env : Env) (conf : conf_t) (fp : FILE) (h : conf.fp_meta = some fp) :
    display_meta env conf = (rendered_tags conf).map (tag_line env conf) ++ separator_line conf := by
  rw [rendered_tags_eq]
  simp only [display_meta, h, separator_line]
  by_cases hs : conf.status = EMUNGE_SUCCESS <;>
    cases h0 : conf.tag 0 <;> cases h1 : conf.tag 1 <;> cases h2 : conf.tag 2 <;>
    cases h3 : conf.tag 3 <;> cases h4 : conf.tag 4 <;>
    simp [hs, h0, h1, h2, h3, h4, MUNGE_TAG_STATUS_CODE, MUNGE_TAG_STATUS_TEXT, MUNGE_TAG_UID,
      MUNGE_TAG_GID, MUNGE_TAG_LENGTH, tag_line, tag_value, fprintf_d, fprintf_s, fmt_s]

theorem line_tag_tag_line (env : Env) (conf : conf_t) (i : Nat) (hi : i < MUNGE_TAG_LAST) :
    line_tag (tag_line env conf i) = i := by
  simp only [MUNGE_TAG_LAST] at hi
  interval_cases i <;>
    simp [line_tag, tag_line, tag_val_to_str_eq, fmt_s, List.takeWhile] <;> decide

theorem tag_line_ne_blank (env : Env) (conf : conf_t) (i : Nat) :
    tag_line env conf i ≠ ['\n'] := by
  intro h
  have := congrArg List.length h
  simp [tag_line] at this
  omega

theorem tag_line_getLast (env : Env) (conf : conf_t) (i : Nat) :
    (tag_line env conf i).getLast? = some '\n' := by
  rw [tag_line, List.getLast?_append]
  rfl

theorem mem_rendered_tags (conf : conf_t) (i : Nat) :
    i ∈ rendered_tags conf ↔ i < MUNGE_TAG_LAST ∧ permitted conf i = true := by
  simp [rendered_tags]

/-- Claim C1. When the metadata stream is present, the lines `display_meta`
writes, the blank separator apart, are one line for each attribute that is
selected and permitted by the status (STATUS-CODE and STATUS-TEXT whatever
the status; UID, GID and LENGTH only on success), for no other attribute, and
in registry order; every text written ends the line. With STATUS-CODE
selected, STATUS-TEXT not selected and a failed decode, the whole output is
the STATUS-CODE line, whether or not UID is selected. -/
theorem display_meta_renders_selected (env : Env) (conf : conf_t) (fp : FILE)
    (h : conf.fp_meta = some fp) :
    ((display_meta env conf).filter (fun l => decide (l ≠ ['\n']))).map line_tag
        = (rendered_tags conf).map Int.ofNat
    ∧ (∀ i : Nat, i ∈ rendered_tags conf ↔
        i < MUNGE_TAG_LAST ∧ conf.tag i = true ∧
          (i = MUNGE_TAG_STATUS_CODE ∨ i = MUNGE_TAG_STATUS_TEXT
            ∨ conf.status = EMUNGE_SUCCESS))
    ∧ (rendered_tags conf).Sorted (· < ·)
    ∧ (∀ l ∈ display_meta env conf, l.getLast? = some '\n')
    ∧ (conf.tag MUNGE_TAG_STATUS_CODE = true → conf.tag MUNGE_TAG_STATUS_TEXT = false →
        conf.status ≠ EMUNGE_SUCCESS →
        display_meta env conf =
          [fprintf_d (some "STATUS-CODE".toList) (conf.tag_max_str_len + 2 - 11) conf.status]) := by
  refine ⟨?_, ?_, ?_, ?_, ?_⟩
  · rw [display_meta_eq env conf fp h, List.filter_append, List.map_append]
    have h1 : ((rendered_tags conf).map (tag_line env conf)).filter
        (fun l => decide (l ≠ ['\n'])) = (rendered_tags conf).map (tag_line env conf) := by
      rw [List.filter_eq_self]
      intro l hl
      obtain ⟨i, -, rfl⟩ := List.mem_map.mp hl
      simpa using tag_line_ne_blank env conf i
    have h2 : (separator_line conf).filter (fun l => decide (l ≠ ['\n'])) = [] := by
      unfold separator_line
      split <;> simp
    rw [h1, h2, List.map_nil, List.append_nil, List.map_map]
    apply List.map_congr_left
    intro i hi
    exact line_tag_tag_line env conf i ((mem_rendered_tags conf i).mp hi).1
  · intro i
    rw [mem_rendered_tags]
    simp [permitted, or_assoc]
  · unfold rendered_tags
    apply List.Sorted.filter
    exact List.sorted_lt_range _
  · intro l hl
    rw [display_meta_eq env conf fp h] at hl
    rcases List.mem_append.mp hl with hl | hl
    · obtain ⟨i, -, rfl⟩ := List.mem_map.mp hl
      exact tag_line_getLast env conf i
    · unfold separator_line at hl
      split at hl <;> simp at hl
      subst hl; rfl
  · intro h0 h1 hs
    simp [display_meta, h, h0, h1, hs, tag_name_status_code, strlen]

/-- Claim C5, amended. When the metadata stream is present, the output of
`display_meta` is the attribute lines (one for each selected and permitted
attribute, none of them blank) followed by exactly one empty line when the
decode succeeded and the metadata stream is the payload stream, and by
nothing when the decode failed or the two streams differ. -/
theorem display_meta_separator (env : Env) (conf : conf_t) (fp : FILE)
    (h : conf.fp_meta = some fp) :
    ∃ lines : List CStr,
      display_meta env conf =
        lines ++ (if conf.status = EMUNGE_SUCCESS ∧ conf.fp_meta = conf.fp_out then [['\n']]
                  else [])
      ∧ lines.map line_tag = (rendered_tags conf).map Int.ofNat
      ∧ ['\n'] ∉ lines := by
  refine ⟨(rendered_tags conf).map (tag_line env conf), ?_, ?_, ?_⟩
  · rw [display_meta_eq env conf fp h]; rfl
  · rw [List.map_map]
    apply List.map_congr_left
    intro i hi
    exact line_tag_tag_line env conf i ((mem_rendered_tags conf i).mp hi).1
  · intro hmem
    obtain ⟨i, -, hi⟩ := List.mem_map.mp hmem
    exact tag_line_ne_blank env conf i hi

/-- Claim C5 fails as stated: after a failed decode with metadata and payload
both on standard output, `display_meta` writes the two status lines and no
empty line. -/
theorem display_meta_no_separator_on_failure :
    conf_failed_shared.fp_meta = some FILE.stdout
    ∧ conf_failed_shared.fp_meta = conf_failed_shared.fp_out
    ∧ display_meta env_ok conf_failed_shared =
        ["STATUS-CODE:  5\n".toList, "STATUS-TEXT:  Failure\n".toList] := by
  decide

theorem fmt_star_c_space (w : Int) (hw : 1 ≤ w) :
    fmt_star_c w ' ' = List.replicate w.toNat ' ' := by
  unfold fmt_star_c
  rw [if_pos (by omega)]
  obtain ⟨n, rfl⟩ : ∃ n : Nat, w = (n : Int) + 1 := ⟨(w - 1).toNat, by omega⟩
  have : ((n : Int) + 1).toNat = n + 1 := by omega
  rw [this, List.replicate_succ']
  simp

theorem create_conf_tag_max_str_len : create_conf.tag_max_str_len = 11 := by decide

theorem tag_line_aligned (env : Env) (conf : conf_t) (i : Nat) (hi : i < MUNGE_TAG_LAST)
    (hw : conf.tag_max_str_len = create_conf.tag_max_str_len) :
    ∃ (name : CStr) (k : Nat), tag_val_to_str i = some name ∧ 2 ≤ k
      ∧ tag_line env conf i
          = name ++ [':'] ++ List.replicate k ' ' ++ tag_value env conf i ++ ['\n']
      ∧ ((name ++ [':'] ++ List.replicate k ' ').length : Int) = conf.tag_max_str_len + 2 + 1 := by
  rw [hw, create_conf_tag_max_str_len]
  simp only [MUNGE_TAG_LAST] at hi
  interval_cases i
  · exact ⟨"STATUS-CODE".toList, 2, rfl, by decide, by
      simp only [tag_line, hw, create_conf_tag_max_str_len]
      rw [fmt_star_c_space _ (by decide)]; rfl, by decide⟩
  · exact ⟨"STATUS-TEXT".toList, 2, rfl, by decide, by
      simp only [tag_line, hw, create_conf_tag_max_str_len]
      rw [fmt_star_c_space _ (by decide)]; rfl, by decide⟩
  · exact ⟨"UID".toList, 10, rfl, by decide, by
      simp only [tag_line, hw, create_conf_tag_max_str_len]
      rw [fmt_star_c_space _ (by decide)]; rfl, by decide⟩
  · exact ⟨"GID".toList, 10, rfl, by decide, by
      simp only [tag_line, hw, create_conf_tag_max_str_len]
      rw [fmt_star_c_space _ (by decide)]; rfl, by decide⟩
  · exact ⟨"LENGTH".toList, 7, rfl, by decide, by
      simp only [tag_line, hw, create_conf_tag_max_str_len]
      rw [fmt_star_c_space _ (by decide)]; rfl, by decide⟩

/-- Claim C9. `create_conf` computes 11 as the longest tag name length, the
length of STATUS-CODE and STATUS-TEXT, and no name is longer. With that
width, every attribute line `display_meta` writes is the tag name, a colon,
at least two spaces and the value, and the value starts
`tag_max_str_len + 2 + 1` characters from the start of the line, whatever
the tag. For all tags selected, success, uid 1000, gid 100 and length 5 the
five attribute lines are the ones displayed, the values in one column. -/
theorem display_meta_values_aligned (env : Env) (conf : conf_t) (fp : FILE)
    (h : conf.fp_meta = some fp)
    (hw : conf.tag_max_str_len = create_conf.tag_max_str_len) :
    create_conf.tag_max_str_len = 11
    ∧ (∀ i : Nat, i < MUNGE_TAG_LAST →
        (strlen (tag_val_to_str i) : Int) ≤ create_conf.tag_max_str_len)
    ∧ (strlen (tag_val_to_str (MUNGE_TAG_STATUS_CODE : Nat)) : Int) = create_conf.tag_max_str_len
    ∧ (strlen (tag_val_to_str (MUNGE_TAG_STATUS_TEXT : Nat)) : Int) = create_conf.tag_max_str_len
    ∧ (∀ l ∈ display_meta env conf, l ≠ ['\n'] →
        ∃ (i : Nat) (name : CStr) (k : Nat),
          i < MUNGE_TAG_LAST ∧ tag_val_to_str i = some name ∧ 2 ≤ k
          ∧ l = name ++ [':'] ++ List.replicate k ' ' ++ tag_value env conf i ++ ['\n']
          ∧ ((name ++ [':'] ++ List.replicate k ' ').length : Int)
              = conf.tag_max_str_len + 2 + 1)
    ∧ ((∀ i : Nat, i < MUNGE_TAG_LAST → conf.tag i = true) → conf.status = EMUNGE_SUCCESS →
        conf.uid = 1000 → conf.gid = 100 → conf.dlen = 5 →
        (display_meta env conf).take 5 =
          [ "STATUS-CODE:  0\n".toList,
            "STATUS-TEXT:  ".toList ++ env.munge_strerror 0 ++ "\n".toList,
            "UID:          1000\n".toList,
            "GID:          100\n".toList,
            "LENGTH:       5\n".toList ]) := by
  refine ⟨create_conf_tag_max_str_len, ?_, by decide, by decide, ?_, ?_⟩
  · intro i hi
    simp only [MUNGE_TAG_LAST] at hi
    interval_cases i <;> decide
  · intro l hl hne
    rw [display_meta_eq env conf fp h] at hl
    rcases List.mem_append.mp hl with hl | hl
    · obtain ⟨i, hi, rfl⟩ := List.mem_map.mp hl
      have hi5 := ((mem_rendered_tags conf i).mp hi).1
      obtain ⟨name, k, hn, hk, hline, hlen⟩ := tag_line_aligned env conf i hi5 hw
      exact ⟨i, name, k, hi5, hn, hk, hline, hlen⟩
    · unfold separator_line at hl
      split at hl <;> simp at hl
      exact absurd hl hne
  · intro htag hs huid hgid hdlen
    have hr : rendered_tags conf = [0, 1, 2, 3, 4] := by
      rw [rendered_tags_eq]
      simp [hs, htag 0 (by decide), htag 1 (by decide), htag 2 (by decide),
        htag 3 (by decide), htag 4 (by decide)]
    rw [display_meta_eq env conf fp h, hr]
    have e0 : tag_line env conf 0 = "STATUS-CODE:  0\n".toList := by
      simp only [tag_line, tag_value, hw, hs, create_conf_tag_max_str_len]; rfl
    have e1 : tag_line env conf 1
        = "STATUS-TEXT:  ".toList ++ env.munge_strerror 0 ++ "\n".toList := by
      simp only [tag_line, tag_value, hw, hs, create_conf_tag_max_str_len]
      simp [MUNGE_TAG_STATUS_CODE, MUNGE_TAG_STATUS_TEXT, EMUNGE_SUCCESS, tag_val_to_str_eq,
        fmt_s, strlen, fmt_star_c]
    have e2 : tag_line env conf 2 = "UID:          1000\n".toList := by
      simp only [tag_line, tag_value, hw, huid, create_conf_tag_max_str_len]; rfl
    have e3 : tag_line env conf 3 = "GID:          100\n".toList := by
      simp only [tag_line, tag_value, hw, hgid, create_conf_tag_max_str_len]; rfl
    have e4 : tag_line env conf 4 = "LENGTH:       5\n".toList := by
      simp only [tag_line, tag_value, hw, hdlen, create_conf_tag_max_str_len]; rfl
    simp only [List.map_cons, List.map_nil, e0, e1, e2, e3, e4]
    rfl

/-! ## Destination router: theorems -/

theorem opens_for_write_append (log new : List Event) (p : CStr) :
    opens_for_write (log ++ new) p = opens_for_write log p + opens_for_write new p := by
  simp [opens_for_write, List.countP_append]

theorem opens_for_write_nil (p : CStr) : opens_for_write [] p = 0 := rfl

theorem opens_for_write_cons_w (q : CStr) (r : Option FILE) (l : List Event) (p : CStr) :
    opens_for_write (Event.fopen q .w r :: l) p
      = opens_for_write l p + (if q = p then 1 else 0) := by
  simp [opens_for_write, List.countP_cons]

theorem opens_for_write_cons_r (q : CStr) (r : Option FILE) (l : List Event) (p : CStr) :
    opens_for_write (Event.fopen q .r r :: l) p = opens_for_write l p := by
  simp [opens_for_write, List.countP_cons]

theorem Outcome.bind_eq_returns {α β : Type} (o : Outcome α) (f : List Event → α → Outcome β)
    (l : List Event) (b : β) :
    o.bind f = .returns l b ↔ ∃ l0 a0, o = .returns l0 a0 ∧ f l0 a0 = .returns l b := by
  cases o with
  | returns l0 a0 =>
    simp only [Outcome.bind, Outcome.returns.injEq]
    constructor
    · intro h; exact ⟨l0, a0, ⟨rfl, rfl⟩, h⟩
    · rintro ⟨l1, a1, ⟨rfl, rfl⟩, h⟩; exact h
  | exits l0 w => simp [Outcome.bind]

theorem isSome_and_eq (o : Option CStr) (s : CStr) :
    (o.isSome = true ∧ s = o.getD []) ↔ o = some s := by
  cases o <;> simp [eq_comm]

theorem open_files_in_eq (env : Env) (log : List Event) (conf : conf_t) :
    open_files_in env log conf =
      match conf.fn_in with
      | none => .returns log conf
      | some fi =>
        if fi = "-".toList then .returns log { conf with fp_in := some .stdin }
        else if env.fopen_ok fi .r = true then
          .returns (log ++ [Event.fopen fi .r (some (FILE.opened log.length))])
            { conf with fp_in := some (FILE.opened log.length) }
        else .exits (log ++ [Event.fopen fi .r none]) (.fatal (.unable_to_read fi)) := by
  unfold open_files_in
  cases conf.fn_in with
  | none => rfl
  | some fi =>
    simp only [strcmp_eq_zero_iff, fopen, log_err]
    split_ifs <;> rfl

theorem open_files_meta_eq (env : Env) (log : List Event) (conf : conf_t) :
    open_files_meta env log conf =
      match conf.fn_meta with
      | none => .returns log conf
      | some fm =>
        if fm = "-".toList then .returns log { conf with fp_meta := some .stdout }
        else if conf.fn_in = some fm then .exits log (.fatal (.same_file fm))
        else if env.fopen_ok fm .w = true then
          .returns (log ++ [Event.fopen fm .w (some (FILE.opened log.length))])
            { conf with fp_meta := some (FILE.opened log.length) }
        else .exits (log ++ [Event.fopen fm .w none]) (.fatal (.unable_to_write fm)) := by
  unfold open_files_meta
  cases conf.fn_meta with
  | none => rfl
  | some fm =>
    simp only [strcmp_eq_zero_iff, isSome_and_eq, fopen, log_err]
    split_ifs <;> rfl

theorem open_files_out_eq (env : Env) (log : List Event) (conf : conf_t) :
    open_files_out env log conf =
      match conf.fn_out with
      | none => .returns log conf
      | some fo =>
        if fo = "-".toList then .returns log { conf with fp_out := some .stdout }
        else if conf.fn_in = some fo then .exits log (.fatal (.same_file fo))
        else if conf.fn_meta = some fo then .returns log { conf with fp_out := conf.fp_meta }
        else if env.fopen_ok fo .w = true then
          .returns (log ++ [Event.fopen fo .w (some (FILE.opened log.length))])
            { conf with fp_out := some (FILE.opened log.length) }
        else .exits (log ++ [Event.fopen fo .w none]) (.fatal (.unable_to_write fo)) := by
  unfold open_files_out
  cases conf.fn_out with
  | none => rfl
  | some fo =>
    simp only [strcmp_eq_zero_iff, isSome_and_eq, fopen, log_err]
    split_ifs <;> rfl

/-- Claim C4. When `open_files` returns, every path has been opened for
writing at most once by it. When the payload path is a concrete path equal
to the metadata path, that path has been opened for writing exactly once and
the payload stream is the metadata stream, a stream returned by `fopen`.
When both paths are `-`, both streams are standard output and no path has
been opened for writing; nothing at all has been opened when the input path
is `-` too. -/
theorem open_files_one_writable_handle (env : Env) (log log1 : List Event) (conf conf1 : conf_t)
    (h : open_files env log conf = .returns log1 conf1) :
    (∀ p : CStr, opens_for_write log1 p ≤ opens_for_write log p + 1)
    ∧ (∀ p : CStr, p ≠ "-".toList → conf.fn_meta = some p → conf.fn_out = some p →
        opens_for_write log1 p = opens_for_write log p + 1
        ∧ conf1.fp_out = conf1.fp_meta
        ∧ ∃ id : Nat, conf1.fp_meta = some (FILE.opened id))
    ∧ (conf.fn_meta = some "-".toList → conf.fn_out = some "-".toList →
        conf1.fp_meta = some FILE.stdout ∧ conf1.fp_out = some FILE.stdout
        ∧ (∀ p : CStr, opens_for_write log1 p = opens_for_write log p)
        ∧ (conf.fn_in = some "-".toList → log1 = log)) := by
  simp only [open_files, Outcome.bind_eq_returns] at h
  obtain ⟨la, ca, hA, lb, cb, hB, hC⟩ := h
  rw [open_files_in_eq] at hA
  rw [open_files_meta_eq] at hB
  rw [open_files_out_eq] at hC
  cases hfi : conf.fn_in <;> cases hfm : conf.fn_meta <;> cases hfo : conf.fn_out <;>
    simp only [hfi, hfm, hfo] at hA <;>
    (try split_ifs at hA) <;>
    simp only [Outcome.returns.injEq, reduceCtorEq] at hA <;>
    obtain ⟨rfl, rfl⟩ := hA <;>
    simp only [hfi, hfm, hfo] at hB <;>
    (try split_ifs at hB) <;>
    simp only [Outcome.returns.injEq, reduceCtorEq] at hB <;>
    obtain ⟨rfl, rfl⟩ := hB <;>
    simp only [hfi, hfm, hfo] at hC <;>
    (try split_ifs at hC) <;>
    simp only [Outcome.returns.injEq, reduceCtorEq] at hC <;>
    obtain ⟨rfl, rfl⟩ := hC
  all_goals
    refine ⟨fun p => ?_, fun p hp hm ho => ?_, fun hm ho => ?_⟩ <;>
    simp_all [opens_for_write_append, opens_for_write_nil, opens_for_write_cons_w,
      opens_for_write_cons_r] <;>
    (try split_ifs) <;> (try omega) <;> simp_all

theorem take_succ_append_cons (log : List Event) (a : Event) (rest : List Event) :
    (log ++ a :: rest).take (log.length + 1) = log ++ [a] := by
  induction log with
  | nil => simp
  | cons x xs ih => simpa using ih

/-- Claim C2, amended. When the metadata path or the payload path is a
concrete path equal byte for byte to the input path, `open_files` ends in a
fatal error and performs no open-for-write of that path string. The input
path is opened for reading first, and when that fails the error is the read
error. When it succeeds: if the metadata path is the input path, or is `-`,
or is absent, the error is the aliasing error and nothing else has been
opened; if the metadata path is another concrete path, it is opened for
writing first, a failure there is the write error, and otherwise the error is
the aliasing error on the payload path. -/
theorem open_files_alias_is_fatal (env : Env) (log : List Event) (conf : conf_t) (p : CStr)
    (hin : conf.fn_in = some p) (hp : p ≠ "-".toList)
    (halias : conf.fn_meta = some p ∨ conf.fn_out = some p) :
    ∃ (log1 : List Event) (msg : Msg), open_files env log conf = .exits log1 (.fatal msg)
      ∧ opens_for_write log1 p = opens_for_write log p
      ∧ (∃ r, log1.take (log.length + 1) = log ++ [Event.fopen p .r r])
      ∧ (env.fopen_ok p .r = false →
          log1 = log ++ [Event.fopen p .r none] ∧ msg = .unable_to_read p)
      ∧ (env.fopen_ok p .r = true → conf.fn_meta = some p →
          log1 = log ++ [Event.fopen p .r (some (FILE.opened log.length))]
          ∧ msg = .same_file p)
      ∧ (env.fopen_ok p .r = true →
          (conf.fn_meta = none ∨ conf.fn_meta = some "-".toList) →
          log1 = log ++ [Event.fopen p .r (some (FILE.opened log.length))]
          ∧ msg = .same_file p)
      ∧ (env.fopen_ok p .r = true → ∀ m : CStr, conf.fn_meta = some m → m ≠ "-".toList →
          m ≠ p → env.fopen_ok m .w = true →
          log1 = log ++ [Event.fopen p .r (some (FILE.opened log.length)),
                         Event.fopen m .w (some (FILE.opened (log.length + 1)))]
          ∧ msg = .same_file p)
      ∧ (env.fopen_ok p .r = true → ∀ m : CStr, conf.fn_meta = some m → m ≠ "-".toList →
          m ≠ p → env.fopen_ok m .w = false →
          log1 = log ++ [Event.fopen p .r (some (FILE.opened log.length)),
                         Event.fopen m .w none]
          ∧ msg = .unable_to_write m) := by
  simp only [open_files, open_files_in_eq, open_files_meta_eq, open_files_out_eq, hin, hp,
    if_false, Outcome.bind]
  cases hok : env.fopen_ok p .r
  · refine ⟨_, _, rfl, ?_, ⟨none, ?_⟩, ?_, ?_, ?_, ?_, ?_⟩ <;>
      simp [opens_for_write_append, opens_for_write_nil, opens_for_write_cons_r]
  · simp only [if_true]
    cases hfm : conf.fn_meta with
    | none =>
      have ho : conf.fn_out = some p := by simpa [hfm] using halias
      simp only [ho, hp, if_false, if_true]
      refine ⟨_, _, rfl, ?_, ⟨some (FILE.opened log.length), ?_⟩, ?_, ?_, ?_, ?_, ?_⟩ <;>
        simp [opens_for_write_append, opens_for_write_nil, opens_for_write_cons_r]
    | some m =>
      by_cases hm1 : m = "-".toList
      · have ho : conf.fn_out = some p := by
          rcases halias with h | h
          · rw [hfm] at h; cases h; exact absurd hm1 hp
          · exact h
        simp only [hm1, ho, hp, if_false, if_true]
        refine ⟨_, _, rfl, ?_, ⟨some (FILE.opened log.length), ?_⟩, ?_, ?_, ?_, ?_, ?_⟩ <;>
          simp_all [opens_for_write_append, opens_for_write_nil, opens_for_write_cons_r]
      · by_cases hm2 : m = p
        · subst hm2
          simp only [hm1, if_false, if_true]
          refine ⟨_, _, rfl, ?_, ⟨some (FILE.opened log.length), ?_⟩, ?_, ?_, ?_, ?_, ?_⟩ <;>
            simp_all [opens_for_write_append, opens_for_write_nil, opens_for_write_cons_r]
        · have ho : conf.fn_out = some p := by
            rcases halias with h | h
            · rw [hfm] at h; cases h; exact absurd rfl hm2
            · exact h
          have hm3 : ¬ (some p = some m) := by
            intro h; cases h; exact hm2 rfl
          simp only [hm1, hm3, if_false]
          cases hokm : env.fopen_ok m .w
          · simp only [Bool.false_eq_true, if_false]
            refine ⟨_, _, rfl, ?_, ⟨some (FILE.opened log.length), ?_⟩, ?_, ?_, ?_, ?_, ?_⟩ <;>
              simp_all [opens_for_write_append, opens_for_write_nil, opens_for_write_cons_r,
                opens_for_write_cons_w, take_succ_append_cons]
          · simp only [if_true, ho, hp, if_false]
            refine ⟨_, _, rfl, ?_, ⟨some (FILE.opened log.length), ?_⟩, ?_, ?_, ?_, ?_, ?_⟩ <;>
              simp_all [opens_for_write_append, opens_for_write_nil, opens_for_write_cons_r,
                opens_for_write_cons_w, take_succ_append_cons]

/-- Claim C2 fails as stated: for `-i a -m b -o a`, `open_files` opens `a`
for reading and `b` for writing before it ends in the aliasing error. -/
theorem open_files_opens_before_alias_error :
    (open_files env_ok [] conf_alias_out).log =
        [Event.fopen "a".toList .r (some (FILE.opened 0)),
         Event.fopen "b".toList .w (some (FILE.opened 1))]
    ∧ (open_files env_ok [] conf_alias_out).stop = some (.fatal (.same_file "a".toList)) := by
  decide

/-! ## Teardown: theorems -/

/-- Claim C10 at the command line `-n -o x`: `open_files` opens `x` for
writing and `destroy_conf` returns having closed standard input only; the
payload stream is never closed. -/
theorem destroy_conf_leaves_payload_open :
    (((parse_cmdline env_ok [] create_conf opts_discard_then_output none).bind
        (open_files env_ok)).bind (destroy_conf env_ok)).log
      = [Event.fopen "x".toList .w (some (FILE.opened 0)), Event.fclose FILE.stdin 0]
    ∧ (((parse_cmdline env_ok [] create_conf opts_discard_then_output none).bind
        (open_files env_ok)).bind (destroy_conf env_ok)).stop = none := by
  decide

/-! ## Payload emitter: theorems -/

/-- Claim C3. `display_data` writes nothing and returns when the decode
failed or the payload stream is absent. On success with the payload stream
present and the `dlen` bytes of the decoded payload at `data`, it offers
exactly these bytes to the payload stream: when the stream accepts them all
it returns having written them, unchanged and in order, and a short write is
the fatal write error. With `dlen = 0` it writes zero bytes and returns. -/
theorem display_data_writes_payload (env : Env) (log : List Event) (conf : conf_t) :
    ((conf.status ≠ EMUNGE_SUCCESS ∨ conf.fp_out = none) →
        display_data env log conf = .returns log ())
    ∧ (∀ (fp : FILE) (d : List Nat), conf.status = EMUNGE_SUCCESS → conf.fp_out = some fp →
        conf.data = some d → conf.dlen = (d.length : Int) → d.length < 2 ^ 31 →
        (d.length ≤ env.fwrite_ret fp d →
          display_data env log conf = .returns (log ++ [Event.fwrite fp d]) ())
        ∧ (env.fwrite_ret fp d < d.length →
          display_data env log conf
            = .exits (log ++ [Event.fwrite fp (d.take (env.fwrite_ret fp d))])
                (.fatal .write_error)))
    ∧ (∀ fp : FILE, conf.status = EMUNGE_SUCCESS → conf.fp_out = some fp → conf.dlen = 0 →
        display_data env log conf = .returns (log ++ [Event.fwrite fp []]) ()) := by
  refine ⟨?_, ?_, ?_⟩
  · rintro (h | h)
    · simp [display_data, h]
    · unfold display_data
      split_ifs
      · rfl
      · simp [h]
  · intro fp d hs hfp hd hlen hlt
    have hsz : size_t conf.dlen = d.length := by
      rw [hlen]; unfold size_t
      omega
    constructor
    · intro hw
      simp [display_data, hs, hfp, hd, fwrite, hsz, Nat.min_eq_right hw]
    · intro hw
      have hmin : min (env.fwrite_ret fp d) d.length = env.fwrite_ret fp d :=
        Nat.min_eq_left (Nat.le_of_lt hw)
      have hne : ¬ env.fwrite_ret fp d = d.length := Nat.ne_of_lt hw
      simp [display_data, hs, hfp, hd, fwrite, hsz, hmin, hne, log_err]
  · intro fp hs hfp hlen
    simp [display_data, hs, hfp, hlen, fwrite, size_t]

/-! ## Command line: theorems -/

theorem mem_separators (c : Char) : c ∈ separators ↔ is_separator_char c := by
  simp [separators, is_separator_char]

theorem tokens_eq_split (arg : CStr) :
    tokens arg
      = (arg.splitOnP fun c => decide (c ∈ separators)).filter fun t => decide (t ≠ []) := by
  have h : (fun c => decide (is_separator_char c)) = (fun c => decide (c ∈ separators)) := by
    funext c
    exact decide_eq_decide.mpr (mem_separators c).symm
  unfold tokens
  rw [h]

theorem tokens_nil : tokens [] = [] := by
  simp [tokens]

theorem tokens_cons_sep (c : Char) (cs : CStr) (hc : c ∈ separators) :
    tokens (c :: cs) = tokens cs := by
  simp [tokens_eq_split, hc]

theorem tokens_dropWhile (s : CStr) :
    tokens (s.dropWhile fun c => decide (c ∈ separators)) = tokens s := by
  induction s with
  | nil => rfl
  | cons c cs ih =>
    by_cases hc : c ∈ separators
    · rw [List.dropWhile_cons_of_pos (by simpa using hc), ih, tokens_cons_sep c cs hc]
    · rw [List.dropWhile_cons_of_neg (by simpa using hc)]

theorem dropWhile_head_not {p : Char → Bool} (l : CStr) (d : Char) (r : CStr)
    (h : l.dropWhile p = d :: r) : p d = false := by
  induction l with
  | nil => simp at h
  | cons x xs ih =>
    by_cases hx : p x = true
    · rw [List.dropWhile_cons_of_pos hx] at h; exact ih h
    · rw [List.dropWhile_cons_of_neg hx] at h
      cases h
      simpa using hx

theorem tokens_of_run (tok rest : CStr) (htok : tok ≠ [])
    (hrun : ∀ c ∈ tok, c ∉ separators) :
    tokens tok = [tok]
    ∧ ∀ d : Char, d ∈ separators → tokens (tok ++ d :: rest) = tok :: tokens rest := by
  constructor
  · rw [tokens_eq_split, List.splitOnP_eq_single]
    · simp [htok]
    · intro x hx; simpa using hrun x hx
  · intro d hd
    rw [tokens_eq_split, tokens_eq_split, List.splitOnP_first]
    · simp [htok]
    · intro x hx; simpa using hrun x hx
    · simpa using hd

theorem strtok_none (s : CStr) (h : strtok s separators = none) : tokens s = [] := by
  unfold strtok at h
  split at h
  · rename_i heq
    rw [← tokens_dropWhile, heq, tokens_nil]
  · cases h

theorem strtok_some (s tok rest : CStr) (h : strtok s separators = some (tok, rest)) :
    tokens s = tok :: tokens rest ∧ rest.length < s.length := by
  unfold strtok at h
  split at h
  · cases h
  · rename_i c cs heq
    simp only [Option.some.injEq, Prod.mk.injEq] at h
    obtain ⟨htok, hrest⟩ := h
    have hc : (fun c => decide (c ∈ separators)) c = false := dropWhile_head_not s c cs heq
    have hc2 : c ∉ separators := by simpa using hc
    have hsplit := List.takeWhile_append_dropWhile (fun c => decide (c ∉ separators)) (c :: cs)
    have hne : tok ≠ [] := by
      rw [← htok, List.takeWhile_cons_of_pos (by simpa using hc2)]
      simp
    have hrun : ∀ x ∈ tok, x ∉ separators := by
      intro x hx
      rw [← htok] at hx
      simpa using List.mem_takeWhile_imp hx
    have hlen : (c :: cs).length ≤ s.length := by
      rw [← heq]
      exact (List.dropWhile_sublist _).length_le
    rw [← tokens_dropWhile s, heq, ← hsplit, htok]
    cases hafter : (c :: cs).dropWhile (fun c => decide (c ∉ separators)) with
    | nil =>
      rw [hafter] at hrest
      simp only [List.tail_nil] at hrest
      subst hrest
      rw [List.append_nil, (tokens_of_run tok [] hne hrun).1, tokens_nil]
      refine ⟨rfl, ?_⟩
      simp only [List.length_nil]
      simp only [List.length_cons] at hlen
      omega
    | cons d r =>
      rw [hafter] at hrest
      simp only [List.tail_cons] at hrest
      subst hrest
      have hd : (fun c => decide (c ∉ separators)) d = false :=
        dropWhile_head_not (c :: cs) d r hafter
      have hd2 : d ∈ separators := by simpa using hd
      refine ⟨(tokens_of_run tok r hne hrun).2 d hd2, ?_⟩
      have := congrArg List.length hsplit
      rw [hafter] at this
      simp only [List.length_append, List.length_cons] at this hlen
      omega

theorem tag_str_to_val_eq_iff (tok : CStr) (i : Nat) :
    tag_str_to_val (some tok) = (i : Int) ↔ names_tag tok i := by
  constructor
  · intro h
    rcases tag_str_to_val_range (some tok) with h1 | ⟨j, hj, hv, t, name, ht, hn, he⟩
    · rw [h1] at h; omega
    · cases ht
      have hij : j = i := by rw [hv] at h; exact_mod_cast h
      subst hij
      exact ⟨hj, name, hn, he⟩
  · rintro ⟨hi, name, hn, he⟩
    exact tag_str_to_val_of_eq i name tok hi hn he

theorem parse_tags_loop_tag (fuel : Nat) (conf : conf_t) (s : CStr) (hf : s.length < fuel)
    (i : Nat) :
    (parse_tags_loop fuel conf (strtok s separators)).tag i = true ↔
      conf.tag i = true ∨ ∃ tok ∈ tokens s, names_tag tok i := by
  induction fuel generalizing conf s with
  | zero => omega
  | succ n ih =>
    cases hst : strtok s separators with
    | none =>
      rw [strtok_none s hst]
      simp [parse_tags_loop]
    | some pr =>
      obtain ⟨tok, rest⟩ := pr
      obtain ⟨htoks, hlen⟩ := strtok_some s tok rest hst
      simp only [parse_tags_loop]
      rw [ih _ rest (by omega), htoks]
      simp only [List.mem_cons, exists_eq_or_imp, ← tag_str_to_val_eq_iff]
      by_cases hv : tag_str_to_val (some tok) ≥ 0
      · simp only [hv, if_true]
        by_cases hi : (i : Int) = tag_str_to_val (some tok)
        · simp [hi]
        · have hi2 : ¬ tag_str_to_val (some tok) = (i : Int) := fun h => hi h.symm
          simp [hi, hi2]
      · have hi2 : ¬ tag_str_to_val (some tok) = (i : Int) := by omega
        simp [hv, hi2]

theorem parse_tags_tag (conf : conf_t) (tags : Option CStr) (i : Nat) :
    (parse_tags conf tags).tag i = true ↔
      conf.tag i = true ∨ ∃ arg, tags = some arg ∧ ∃ tok ∈ tokens arg, names_tag tok i := by
  match tags with
  | none => simp [parse_tags]
  | some [] => simp [parse_tags, tokens_nil]
  | some (c :: cs) =>
    simp only [parse_tags]
    rw [parse_tags_loop_tag _ conf (c :: cs) (by omega)]
    simp

theorem mem_tag_args (opts : List getopt_ret) (arg : CStr) :
    arg ∈ tag_args opts ↔ ∃ g ∈ opts, g.c = 't' ∧ g.optarg = some arg := by
  simp only [tag_args, List.mem_filterMap]
  constructor
  · rintro ⟨g, hg, h⟩
    split_ifs at h with hc
    exact ⟨g, hg, hc, h⟩
  · rintro ⟨g, hg, hc, h⟩
    exact ⟨g, hg, by simp [hc, h]⟩

theorem parse_cmdline_loop_cons (env : Env) (log log1 : List Event) (g : getopt_ret)
    (rest : List getopt_ret) (conf : conf_t) (got : Bool) (r : conf_t × Bool)
    (h : parse_cmdline_loop env log (g :: rest) conf got = .returns log1 r) :
    passes env g = true ∧
    ∃ (conf1 : conf_t) (got1 : Bool),
      parse_cmdline_loop env log rest conf1 got1 = .returns log1 r
      ∧ ((g.c ≠ 't' ∧ conf1.tag = conf.tag ∧ got1 = got)
          ∨ (g.c = 't' ∧ conf1 = parse_tags conf g.optarg ∧ got1 = true)) := by
  rw [parse_cmdline_loop] at h
  by_cases c1 : g.c = 'h'
  · rw [if_pos c1] at h; cases h
  rw [if_neg c1] at h
  by_cases c2 : g.c = 'L'
  · rw [if_pos c2] at h; cases h
  rw [if_neg c2] at h
  by_cases c3 : g.c = 'v'
  · rw [if_pos c3] at h
    exact ⟨by simp [passes, c3], _, _, h, Or.inl ⟨by rw [c3]; decide, rfl, rfl⟩⟩
  rw [if_neg c3] at h
  by_cases c4 : g.c = 'i'
  · rw [if_pos c4] at h
    exact ⟨by simp [passes, c4], _, _, h, Or.inl ⟨by rw [c4]; decide, rfl, rfl⟩⟩
  rw [if_neg c4] at h
  by_cases c5 : g.c = 'm'
  · rw [if_pos c5] at h
    exact ⟨by simp [passes, c5], _, _, h, Or.inl ⟨by rw [c5]; decide, rfl, rfl⟩⟩
  rw [if_neg c5] at h
  by_cases c6 : g.c = 'n'
  · rw [if_pos c6] at h
    exact ⟨by simp [passes, c6], _, _, h, Or.inl ⟨by rw [c6]; decide, rfl, rfl⟩⟩
  rw [if_neg c6] at h
  by_cases c7 : g.c = 'o'
  · rw [if_pos c7] at h
    exact ⟨by simp [passes, c7], _, _, h, Or.inl ⟨by rw [c7]; decide, rfl, rfl⟩⟩
  rw [if_neg c7] at h
  by_cases c8 : g.c = 'S'
  · rw [if_pos c8] at h
    by_cases cs : env.munge_ctx_set (g.optarg.getD []) ≠ EMUNGE_SUCCESS
    · rw [if_pos cs] at h; cases h
    · rw [if_neg cs] at h
      have cs2 : env.munge_ctx_set (g.optarg.getD []) = EMUNGE_SUCCESS := not_not.mp cs
      exact ⟨by simp [passes, c8, cs2], _, _, h, Or.inl ⟨by rw [c8]; decide, rfl, rfl⟩⟩
  rw [if_neg c8] at h
  by_cases c9 : g.c = 't'
  · rw [if_pos c9] at h
    exact ⟨by simp [passes, c9], _, _, h, Or.inr ⟨c9, rfl, rfl⟩⟩
  rw [if_neg c9] at h
  by_cases c10 : g.c = 'T'
  · rw [if_pos c10] at h; cases h
  rw [if_neg c10] at h
  by_cases c11 : g.c = '?'
  · rw [if_pos c11] at h; cases h
  · rw [if_neg c11] at h; cases h

theorem parse_cmdline_loop_tag (env : Env) (log log1 : List Event) (opts : List getopt_ret)
    (conf conf1 : conf_t) (got got1 : Bool)
    (h : parse_cmdline_loop env log opts conf got = .returns log1 (conf1, got1)) :
    log1 = log
    ∧ (got1 = true ↔ got = true ∨ ¬ no_tag_option opts)
    ∧ ∀ i : Nat, conf1.tag i = true ↔
        conf.tag i = true ∨ ∃ arg ∈ tag_args opts, ∃ tok ∈ tokens arg, names_tag tok i := by
  induction opts generalizing conf got with
  | nil =>
    simp only [parse_cmdline_loop, Outcome.returns.injEq, Prod.mk.injEq] at h
    obtain ⟨rfl, rfl, rfl⟩ := h
    simp [no_tag_option, tag_args]
  | cons g rest ih =>
    obtain ⟨-, conf2, got2, h2, hcase⟩ := parse_cmdline_loop_cons env log log1 g rest conf got _ h
    obtain ⟨e1, e2, e3⟩ := ih _ _ h2
    rcases hcase with ⟨hg, htag, hgot⟩ | ⟨hg, hconf, hgot⟩
    · refine ⟨e1, ?_, ?_⟩
      · rw [e2, hgot]; simp [no_tag_option, hg]
      · intro i; rw [e3 i, htag]; simp [tag_args, hg]
    · refine ⟨e1, ?_, ?_⟩
      · rw [e2]; simp [no_tag_option, hg, hgot]
      · intro i
        rw [e3 i, hconf, parse_tags_tag]
        simp only [mem_tag_args, List.mem_cons, exists_eq_or_imp, hg, true_and]
        constructor
        · rintro ((hc | ⟨arg, ha, ht⟩) | ⟨arg, ha, ht⟩)
          · exact Or.inl hc
          · exact Or.inr ⟨arg, Or.inl ha, ht⟩
          · exact Or.inr ⟨arg, Or.inr ha, ht⟩
        · rintro (hc | ⟨arg, ha | ha, ht⟩)
          · exact Or.inl (Or.inl hc)
          · exact Or.inl (Or.inr ⟨arg, ha, ht⟩)
          · exact Or.inr ⟨arg, ha, ht⟩

theorem parse_cmdline_loop_returns (env : Env) (log : List Event) (opts : List getopt_ret)
    (conf : conf_t) (got : Bool) (hp : ∀ g ∈ opts, passes env g = true) :
    ∃ r : conf_t × Bool, parse_cmdline_loop env log opts conf got = .returns log r := by
  induction opts generalizing conf got with
  | nil => exact ⟨_, rfl⟩
  | cons g rest ih =>
    have hg := hp g (List.mem_cons_self _ _)
    have hrest : ∀ g ∈ rest, passes env g = true := fun x hx => hp x (List.mem_cons_of_mem _ hx)
    rw [parse_cmdline_loop]
    simp only [passes, Bool.or_eq_true, Bool.and_eq_true, decide_eq_true_eq] at hg
    by_cases c3 : g.c = 'v'
    · simp only [c3, Char.reduceEq, if_false, if_true]; exact ih _ _ hrest
    by_cases c4 : g.c = 'i'
    · simp only [c4, Char.reduceEq, if_false, if_true]; exact ih _ _ hrest
    by_cases c5 : g.c = 'm'
    · simp only [c5, Char.reduceEq, if_false, if_true]; exact ih _ _ hrest
    by_cases c6 : g.c = 'n'
    · simp only [c6, Char.reduceEq, if_false, if_true]; exact ih _ _ hrest
    by_cases c7 : g.c = 'o'
    · simp only [c7, Char.reduceEq, if_false, if_true]; exact ih _ _ hrest
    by_cases c9 : g.c = 't'
    · simp only [c9, Char.reduceEq, if_false, if_true]; exact ih _ _ hrest
    · have hS : g.c = 'S' ∧ env.munge_ctx_set (g.optarg.getD []) = EMUNGE_SUCCESS := by tauto
      simp only [hS.1, hS.2, Char.reduceEq, if_false, if_true, ne_eq, not_true_eq_false]
      exact ih _ _ hrest

/-- Claim C7. On a command line whose options `parse_cmdline` goes past, it
returns, and from the all-clear mask of `create_conf` the attribute mask is
the five tags when there is no `-t` option, and otherwise the set of
ordinals that some token of some `-t` argument names ignoring case.
The tokens are the non-empty pieces of the argument split on space, tab,
newline, `.`, `,` and `;`. `parse_tags` sets a flag exactly when it was set
or a token names it: it never clears a flag, and tokens that name no tag
change nothing. -/
theorem parse_cmdline_tag_mask (env : Env) (log : List Event) (opts : List getopt_ret)
    (hp : ∀ g ∈ opts, passes env g = true) :
    (∃ conf1 : conf_t, parse_cmdline env log create_conf opts none = .returns log conf1
      ∧ ∀ i : Nat, conf1.tag i = true ↔
          if no_tag_option opts then i < MUNGE_TAG_LAST
          else ∃ arg ∈ tag_args opts, ∃ tok ∈ tokens arg, names_tag tok i)
    ∧ (∀ (conf : conf_t) (tags : Option CStr) (i : Nat),
        (parse_tags conf tags).tag i = true ↔
          conf.tag i = true ∨ ∃ arg, tags = some arg ∧ ∃ tok ∈ tokens arg, names_tag tok i)
    ∧ (∀ (conf : conf_t) (tags : Option CStr) (i : Nat),
        conf.tag i = true → (parse_tags conf tags).tag i = true)
    ∧ (∀ (conf : conf_t) (arg : CStr),
        (∀ tok ∈ tokens arg, tag_str_to_val (some tok) = -1) →
        (parse_tags conf (some arg)).tag = conf.tag) := by
  refine ⟨?_, parse_tags_tag, ?_, ?_⟩
  · obtain ⟨⟨conf2, got2⟩, hloop⟩ := parse_cmdline_loop_returns env log opts create_conf false hp
    obtain ⟨-, hgot, htag⟩ := parse_cmdline_loop_tag env log log opts create_conf conf2 false got2 hloop
    have hinit : ∀ i : Nat, create_conf.tag i = false := fun _ => rfl
    simp only [parse_cmdline, hloop, Outcome.bind]
    by_cases hno : no_tag_option opts
    · have hg : got2 = false := by
        cases got2
        · rfl
        · exact absurd hno (by simpa using hgot)
      subst hg
      refine ⟨_, rfl, ?_⟩
      intro i
      simp only [if_pos hno]
      have hnone : ¬ ∃ arg ∈ tag_args opts, ∃ tok ∈ tokens arg, names_tag tok i := by
        rintro ⟨arg, ha, -⟩
        obtain ⟨g, hg, hc, -⟩ := (mem_tag_args opts arg).mp ha
        exact hno g hg hc
      have hfalse : conf2.tag i = false := by
        have := htag i
        simp only [hinit, hnone, or_self, iff_false] at this
        simpa using this
      by_cases hi : i < MUNGE_TAG_LAST <;> simp [hi, hfalse]
    · have hg : got2 = true := by
        rw [hgot]; exact Or.inr hno
      subst hg
      refine ⟨_, rfl, ?_⟩
      intro i
      simp only [if_neg hno]
      rw [htag i]
      simp [hinit]
  · intro conf tags i hi
    rw [parse_tags_tag]
    exact Or.inl hi
  · intro conf arg hall
    funext i
    have h := parse_tags_tag conf (some arg) i
    have hnone : ¬ ∃ a, some arg = some a ∧ ∃ tok ∈ tokens a, names_tag tok i := by
      rintro ⟨a, ha, tok, htok, hn⟩
      cases ha
      have h1 := hall tok htok
      have h2 := (tag_str_to_val_eq_iff tok i).mpr hn
      rw [h1] at h2
      omega
    simp only [hnone, or_false] at h
    cases h1 : (parse_tags conf (some arg)).tag i <;> cases h2 : conf.tag i <;> simp_all


/-! ## The theorems at concrete inputs -/

/-- Claim C1 at a failed decode with STATUS-CODE and UID selected. -/
theorem display_meta_renders_selected_witness :
    conf_code_uid_failed.fp_meta = some FILE.stdout
    ∧ display_meta env_ok conf_code_uid_failed = ["STATUS-CODE:  8\n".toList] :=
  ⟨rfl, (display_meta_renders_selected env_ok conf_code_uid_failed FILE.stdout rfl).2.2.2.2
    rfl rfl (by decide)⟩

/-- Claim C2, amended, at the command lines `-i a -m b -o a` and `-i a -o a`. -/
theorem open_files_alias_is_fatal_witness :
    (∃ (log1 : List Event) (msg : Msg),
      open_files env_ok [] conf_alias_out = .exits log1 (.fatal msg)
      ∧ log1 = [Event.fopen "a".toList .r (some (FILE.opened 0)),
                Event.fopen "b".toList .w (some (FILE.opened 1))]
      ∧ msg = .same_file "a".toList)
    ∧ (∃ (log1 : List Event) (msg : Msg),
      open_files env_ok [] conf_alias_default_meta = .exits log1 (.fatal msg)
      ∧ log1 = [Event.fopen "a".toList .r (some (FILE.opened 0))]
      ∧ msg = .same_file "a".toList) := by
  constructor
  · obtain ⟨log1, msg, h1, -, -, -, -, -, h7, -⟩ :=
      open_files_alias_is_fatal env_ok [] conf_alias_out "a".toList rfl (by decide) (Or.inr rfl)
    have h := h7 rfl "b".toList rfl (by decide) (by decide) rfl
    exact ⟨log1, msg, h1, h.1, h.2⟩
  · obtain ⟨log1, msg, h1, -, -, -, -, h6, -⟩ :=
      open_files_alias_is_fatal env_ok [] conf_alias_default_meta "a".toList rfl (by decide)
        (Or.inr rfl)
    have h := h6 rfl (Or.inr rfl)
    exact ⟨log1, msg, h1, h.1, h.2⟩

/-- Claim C3 at a successful decode of the payload `hello`. -/
theorem display_data_writes_payload_witness :
    display_data env_ok [] conf_success_shared
      = .returns [Event.fwrite FILE.stdout [104, 101, 108, 108, 111]] () :=
  ((display_data_writes_payload env_ok [] conf_success_shared).2.1 FILE.stdout
    [104, 101, 108, 108, 111] rfl rfl rfl rfl (by decide)).1 (by decide)

/-- Claim C4 at the command line `-m x -o x`. -/
theorem open_files_one_writable_handle_witness :
    open_files env_ok [] conf_shared_file
        = .returns [Event.fopen "x".toList .w (some (FILE.opened 0))] conf_shared_file_opened
    ∧ opens_for_write [Event.fopen "x".toList .w (some (FILE.opened 0))] "x".toList = 1
    ∧ conf_shared_file_opened.fp_out = conf_shared_file_opened.fp_meta :=
  have h : open_files env_ok [] conf_shared_file
      = .returns [Event.fopen "x".toList .w (some (FILE.opened 0))] conf_shared_file_opened := rfl
  have t := (open_files_one_writable_handle env_ok [] _ conf_shared_file
    conf_shared_file_opened h).2.1 "x".toList (by decide) rfl rfl
  ⟨h, t.1, t.2.1⟩

/-- Claim C5, amended, at a successful decode with one output stream. -/
theorem display_meta_separator_witness :
    ∃ lines : List CStr,
      display_meta env_ok conf_success_shared = lines ++ [['\n']]
      ∧ lines.map line_tag = [0, 1, 2, 3, 4] := by
  obtain ⟨lines, h1, h2, -⟩ :=
    display_meta_separator env_ok conf_success_shared FILE.stdout rfl
  exact ⟨lines, h1, h2⟩

/-- Claim C7 at the command line `-t "uid, Status-Code;;x"`: the mask is
STATUS-CODE and UID. -/
theorem parse_cmdline_tag_mask_witness :
    ∃ conf1 : conf_t, parse_cmdline env_ok [] create_conf opts_tags none = .returns [] conf1
      ∧ conf1.tag 0 = true ∧ conf1.tag 1 = false ∧ conf1.tag 2 = true
      ∧ conf1.tag 3 = false ∧ conf1.tag 4 = false ∧ conf1.tag 5 = false := by
  obtain ⟨conf1, h, hm⟩ := (parse_cmdline_tag_mask env_ok [] opts_tags (by decide)).1
  refine ⟨conf1, h, (hm 0).mpr (by decide), ?_, (hm 2).mpr (by decide), ?_, ?_, ?_⟩
  · exact Bool.eq_false_iff.mpr fun ht => absurd ((hm 1).mp ht) (by decide)
  · exact Bool.eq_false_iff.mpr fun ht => absurd ((hm 3).mp ht) (by decide)
  · exact Bool.eq_false_iff.mpr fun ht => absurd ((hm 4).mp ht) (by decide)
  · exact Bool.eq_false_iff.mpr fun ht => absurd ((hm 5).mp ht) (by decide)

/-- Claim C9 at the example of the specification. -/
theorem display_meta_values_aligned_witness :
    (display_meta env_ok conf_success_shared).take 5 =
      [ "STATUS-CODE:  0\n".toList,
        "STATUS-TEXT:  Success\n".toList,
        "UID:          1000\n".toList,
        "GID:          100\n".toList,
        "LENGTH:       5\n".toList ] :=
  (display_meta_values_aligned env_ok conf_success_shared FILE.stdout rfl rfl).2.2.2.2.2
    (fun i hi => by simp [conf_success_shared, hi]) rfl rfl rfl rfl

end Unmunge
